import Mathlib

/-!
Shallow embedding of `sync_unifi_filters.py`, a small CLI that syncs a
domain block-list between a local text file and a Unifi controller's
content-filtering REST API.

Conventions of the embedding:
* JSON values are modelled by `JVal`; a filter object (a Python dict
  decoded from JSON) is an association list `ContentFilter` whose key order is
  the dict's insertion order, mirroring Python dict semantics.
* Files are modelled as their character contents (`List Char`); a file
  that may not exist is an `Option (List Char)`.
* HTTP effects are modelled by explicit data: response status codes are
  `Nat`s, and the body of an issued PUT is returned as data.
* Machine-level concerns (TLS, sessions, cookies as state) are outside
  the modelled fragment; the CSRF-token extraction is modelled as a pure
  function of the cookie string.
-/

/-- JSON values, as decoded by `json.loads` / sent by `json=` bodies. -/
inductive JVal where
  | str (s : String)
  | num (n : Int)
  | bool (b : Bool)
  | null
  | arr (elems : List JVal)
  | obj (fields : List (String × JVal))

/-- A content-filter object: a JSON object as an ordered association list,
mirroring a Python dict (insertion order, unique keys). -/
abbrev ContentFilter := List (String × JVal)

/-- Models Python `d.get(k)` on a dict: the value at the first matching key,
or `none` when the key is absent. -/
def dictGet (d : ContentFilter) (k : String) : Option JVal :=
  (d.find? (fun p => decide (p.1 = k))).map (fun p => p.2)

/-- Models Python `d[k] = v` on a dict: replaces the value in place when the
key exists (keeping its position), otherwise appends the new binding. -/
def dictSet (d : ContentFilter) (k : String) (v : JVal) : ContentFilter :=
  if d.any (fun p => decide (p.1 = k)) then
    d.map (fun p => if p.1 = k then (k, v) else p)
  else
    d ++ [(k, v)]

/-- Models the Python comparison `f.get('name') == filter_name` from
`find_filter` (line 84): true exactly when the dict has a `name` key whose
value is the string `filter_name` (comparing a non-string JSON value with a
Python `str` yields `False`). -/
def isNameMatch (f : ContentFilter) (filter_name : String) : Bool :=
  match dictGet f "name" with
  | some (JVal.str s) => s == filter_name
  | _ => false

/-- Embeds `UnifiContentFilter.find_filter` (lines 80-86): the first filter
in the fetched collection whose `name` field equals `filter_name`, else
`None`. The collection itself is passed in as the (already decoded) response
of `get_content_filters`. -/
def find_filter (filters : List ContentFilter) (filter_name : String) : Option ContentFilter :=
  filters.find? (fun f => isNameMatch f filter_name)

/-- Outcome of `update_content_filters`: no PUT and `False` returned when the
filter is not found; an uncaught `KeyError` when the found filter lacks
`_id` (line 96); otherwise a PUT is issued with the given body. -/
inductive UpdResult where
  | notFound
  | keyError
  | putSent (body : ContentFilter)

/-- Embeds `UnifiContentFilter.update_content_filters` (lines 88-110) up to
the point the PUT request is issued: resolve the filter via `find_filter`
(`if not content_filter` is `None`-ness here: any dict returned by
`find_filter` has a matching `name` key, hence is non-empty and truthy),
read `content_filter['_id']`, overwrite `content_filter['block_list']` with
the given domains, and send the whole mutated object as the PUT body. -/
def update_content_filters (filters : List ContentFilter) (filter_name : String)
    (domains : List String) : UpdResult :=
  match find_filter filters filter_name with
  | none => UpdResult.notFound
  | some content_filter =>
    match dictGet content_filter "_id" with
    | none => UpdResult.keyError
    | some _ =>
      UpdResult.putSent (dictSet content_filter "block_list" (JVal.arr (domains.map JVal.str)))

/-- The PUT bodies issued by an `update_content_filters` call. -/
def updPuts : UpdResult → List ContentFilter
  | UpdResult.putSent body => [body]
  | _ => []

/-- The boolean result `update_content_filters` returns on its non-raising
paths (`False` on not-found, line 94). -/
def updSuccess : UpdResult → Bool
  | UpdResult.putSent _ => true
  | _ => false

/-! ## File codec -/

/-- Whitespace stripped by Python `str.strip()` with no argument. -/
def isPyWs (c : Char) : Bool :=
  c = ' ' || c = '\t' || c = '\n' || c = '\r' || c.toNat = 11 || c.toNat = 12

/-- Models Python `line.strip()`: drop leading and trailing whitespace. -/
def pyStrip (cs : List Char) : List Char :=
  ((cs.dropWhile isPyWs).reverse.dropWhile isPyWs).reverse

/-- Helper for `splitLines`; `acc` holds the reversed characters of the
current (unfinished) line. -/
def splitLinesAux : List Char → List Char → List (List Char)
  | [], acc => if acc.isEmpty then [] else [acc.reverse]
  | c :: rest, acc =>
    if c = '\n' then acc.reverse :: splitLinesAux rest []
    else splitLinesAux rest (c :: acc)

/-- Models Python text-file line iteration (`for line in f`) with the
trailing newline of each line already removed (the code strips it anyway):
a trailing newline does not open a final empty line. -/
def splitLines (cs : List Char) : List (List Char) :=
  splitLinesAux cs []

/-- The retention test of `read_filter_file` line 125 applied to an already
stripped line: `if line and not line.startswith('#')`. -/
def keepLine (l : List Char) : Bool :=
  !l.isEmpty && !(l.head? = some '#')

/-- Embeds `read_filter_file` (lines 112-130): a missing file yields `[]`;
otherwise each line is stripped and kept unless empty or a `#` comment, in
file order. (The `silent` flag only controls stderr chatter.) -/
def read_filter_file (file : Option (List Char)) : List String :=
  match file with
  | none => []
  | some cs => (((splitLines cs).map pyStrip).filter keepLine).map String.mk

/-- Lexicographic-by-code-point comparison of character lists: the order
Python string `<` uses. -/
def pyLtChars : List Char → List Char → Bool
  | [], [] => false
  | [], _ :: _ => true
  | _ :: _, [] => false
  | a :: as, b :: bs =>
    if a.toNat < b.toNat then true
    else if b.toNat < a.toNat then false
    else pyLtChars as bs

/-- Models Python `a < b` on strings. -/
def pyLtStr (a b : String) : Bool :=
  pyLtChars a.data b.data

/-- Models Python `a <= b` on strings (the total order `sorted` induces). -/
def pyLeStr (a b : String) : Bool :=
  !(pyLtStr b a)

/-- Insert into an ascending list, before the first strictly larger entry. -/
def insertSorted (d : String) : List String → List String
  | [] => [d]
  | x :: xs => if pyLeStr d x then d :: x :: xs else x :: insertSorted d xs

/-- Models Python `sorted` on a list of strings: an insertion sort by the
code-point lexicographic order (structurally recursive, so it computes).
On strings any two sorts agree extensionally: equal sort keys are
identical values, so stability is unobservable. -/
def sortedStrings : List String → List String
  | [] => []
  | d :: ds => insertSorted d (sortedStrings ds)

/-- The fixed header comment block written by `write_filter_file`
(lines 135-137), parameterised by the filter name as on line 135. -/
def headerStr (filter_name : String) : String :=
  "# " ++ filter_name ++ "\n# Lines starting with \x27#\x27 are comments\n# Edit this file and run \x27sync\x27 to update the Unifi controller\n\n"

/-- Embeds `write_filter_file` (lines 132-142): the produced file contents,
a header block followed by the domains in sorted order, one per line. -/
def write_filter_file (domains : List String) (filter_name : String) : List Char :=
  (headerStr filter_name).data ++ (sortedStrings domains).flatMap (fun d => d.data ++ ['\n'])

/-- Reference line splitter used to state properties of `splitLines`:
splits at every newline, so contents ending in a newline produce a final
empty segment (never returns `[]`). -/
def splitOnNl : List Char → List (List Char)
  | [] => [[]]
  | c :: rest =>
    if c = '\n' then [] :: splitOnNl rest
    else
      match splitOnNl rest with
      | [] => [[c]]
      | h :: t => (c :: h) :: t

/-- Drops a final empty segment, turning `splitOnNl` into `splitLines`. -/
def dropFinalEmpty : List (List Char) → List (List Char)
  | [] => []
  | [h] => if h.isEmpty then [] else [h]
  | h :: t => h :: dropFinalEmpty t

/-! ## CSRF token extraction -/

/-- Value of a base64url alphabet character (`A-Z a-z 0-9 - _`), `none`
for anything outside the alphabet. -/
def b64Val (c : Char) : Option Nat :=
  if 'A' ≤ c ∧ c ≤ 'Z' then some (c.toNat - 65)
  else if 'a' ≤ c ∧ c ≤ 'z' then some (c.toNat - 97 + 26)
  else if '0' ≤ c ∧ c ≤ '9' then some (c.toNat - 48 + 52)
  else if c = '-' then some 62
  else if c = '_' then some 63
  else none

/-- Decodes base64 four-character groups into bytes; `=` padding is allowed
only at the very end (one or two pads). -/
def decodeQuads : List Char → Option (List Nat)
  | [] => some []
  | a :: b :: c :: d :: rest => do
    let va ← b64Val a
    let vb ← b64Val b
    if c = '=' then
      if d = '=' ∧ rest = [] then some [va * 4 + vb / 16] else none
    else do
      let vc ← b64Val c
      if d = '=' then
        if rest = [] then some [va * 4 + vb / 16, (vb % 16) * 16 + vc / 4] else none
      else do
        let vd ← b64Val d
        let tl ← decodeQuads rest
        some ((va * 4 + vb / 16) :: ((vb % 16) * 16 + vc / 4) :: ((vc % 4) * 64 + vd) :: tl)
  | _ => none

/-- Models `base64.urlsafe_b64decode` on its strict domain: the whole input
must consist of alphabet characters in groups of four with trailing `=`
padding. (CPython additionally discards non-alphabet bytes before decoding;
inputs relying on that laxity are outside this model and decode to `none`.) -/
def b64urlDecode (s : List Char) : Option (List Nat) :=
  decodeQuads s

/-- The padding step of `_extract_csrf_token` (lines 44-46): pad the payload
with `=` to a multiple of four characters. -/
def pad4 (payload : List Char) : List Char :=
  let padding := 4 - payload.length % 4
  if padding ≠ 4 then payload ++ List.replicate padding '=' else payload

/-- Models Python `str.split(sep)` for a single-character separator: splits
at every occurrence, keeping empty segments (never returns `[]`). -/
def splitOnChar (sep : Char) : List Char → List (List Char)
  | [] => [[]]
  | c :: rest =>
    if c = sep then [] :: splitOnChar sep rest
    else
      match splitOnChar sep rest with
      | [] => [[c]]
      | h :: t => (c :: h) :: t

/-- Models the implicit UTF-8 decoding done by `json.loads` on a bytes
input, restricted to ASCII payloads (non-ASCII bytes fall outside the
modelled fragment and yield `none`). -/
def bytesToAscii (bs : List Nat) : Option (List Char) :=
  bs.mapM (fun b => if b < 128 then some (Char.ofNat b) else none)

/-- JSON whitespace. -/
def jsonWs (c : Char) : Bool :=
  c = ' ' || c = '\t' || c = '\n' || c = '\r'

/-- Skip JSON whitespace. -/
def skipWs (cs : List Char) : List Char :=
  cs.dropWhile jsonWs

/-- Parses the body of a JSON string (after the opening quote), returning
the content and the input after the closing quote. Supports the single
character escapes; `\u` escapes are outside the modelled fragment. Raw
control characters are rejected as in `json.loads`. -/
def parseStrBody : List Char → Option (List Char × List Char)
  | [] => none
  | '"' :: rest => some ([], rest)
  | '\\' :: e :: rest => do
    let c ← match e with
      | '"' => some '"'
      | '\\' => some '\\'
      | '/' => some '/'
      | 'b' => some (Char.ofNat 8)
      | 'f' => some (Char.ofNat 12)
      | 'n' => some '\n'
      | 'r' => some '\r'
      | 't' => some '\t'
      | _ => none
    let (s, r) ← parseStrBody rest
    some (c :: s, r)
  | c :: rest =>
    if c.toNat < 32 then none
    else do
      let (s, r) ← parseStrBody rest
      some (c :: s, r)

/-- Digits of a decimal literal as a number. -/
def digitsToNat (ds : List Char) : Nat :=
  ds.foldl (fun n c => n * 10 + (c.toNat - 48)) 0

/-- Finishes a JSON number after its integer digits: fractional or exponent
parts are outside the modelled fragment (JWT payload numbers are integers). -/
def numTail (n : Int) (r : List Char) : Option (JVal × List Char) :=
  match r with
  | c :: _ => if c = '.' ∨ c = 'e' ∨ c = 'E' then none else some (JVal.num n, r)
  | [] => some (JVal.num n, [])

/-- Parses a JSON integer literal starting at the given characters. -/
def parseNumFrom (cs : List Char) : Option (JVal × List Char) :=
  match cs with
  | '-' :: rest =>
    let ds := rest.takeWhile Char.isDigit
    if ds.isEmpty then none else numTail (-(digitsToNat ds : Int)) (rest.dropWhile Char.isDigit)
  | _ =>
    let ds := cs.takeWhile Char.isDigit
    if ds.isEmpty then none else numTail (digitsToNat ds) (cs.dropWhile Char.isDigit)

mutual

/-- Fuelled recursive-descent parser for a JSON value, modelling
`json.loads` on the fragment described above. -/
def parseVal : Nat → List Char → Option (JVal × List Char)
  | 0, _ => none
  | fuel + 1, cs =>
    match skipWs cs with
    | [] => none
    | c :: rest =>
      if c = '"' then (parseStrBody rest).map (fun p => (JVal.str (String.mk p.1), p.2))
      else if c.toNat = 123 then
        match skipWs rest with
        | '}' :: r => some (JVal.obj [], r)
        | _ => (parseMembers fuel rest).map (fun p => (JVal.obj p.1, p.2))
      else if c = '[' then
        match skipWs rest with
        | ']' :: r => some (JVal.arr [], r)
        | _ => (parseElems fuel rest).map (fun p => (JVal.arr p.1, p.2))
      else if c = 't' then
        match rest with
        | 'r' :: 'u' :: 'e' :: r => some (JVal.bool true, r)
        | _ => none
      else if c = 'f' then
        match rest with
        | 'a' :: 'l' :: 's' :: 'e' :: r => some (JVal.bool false, r)
        | _ => none
      else if c = 'n' then
        match rest with
        | 'u' :: 'l' :: 'l' :: r => some (JVal.null, r)
        | _ => none
      else if c = '-' ∨ c.isDigit then parseNumFrom (c :: rest)
      else none

/-- Parses the members of a non-empty JSON object (after the opening brace). -/
def parseMembers : Nat → List Char → Option (List (String × JVal) × List Char)
  | 0, _ => none
  | fuel + 1, cs =>
    match skipWs cs with
    | '"' :: rest => do
      let (k, r1) ← parseStrBody rest
      match skipWs r1 with
      | ':' :: r2 => do
        let (v, r3) ← parseVal fuel r2
        match skipWs r3 with
        | ',' :: r4 => do
          let (ms, r5) ← parseMembers fuel r4
          some ((String.mk k, v) :: ms, r5)
        | '}' :: r4 => some ([(String.mk k, v)], r4)
        | _ => none
      | _ => none
    | _ => none

/-- Parses the elements of a non-empty JSON array (after the opening bracket). -/
def parseElems : Nat → List Char → Option (List JVal × List Char)
  | 0, _ => none
  | fuel + 1, cs => do
    let (v, r1) ← parseVal fuel cs
    match skipWs r1 with
    | ',' :: r2 => do
      let (es, r3) ← parseElems fuel r2
      some (v :: es, r3)
    | ']' :: r2 => some ([v], r2)
    | _ => none

end

/-- Models `json.loads` on a bytes payload: decode as text, parse one JSON
value, and require only whitespace to remain. -/
def jsonParse (bs : List Nat) : Option JVal := do
  let cs ← bytesToAscii bs
  let (v, rest) ← parseVal (cs.length + 1) cs
  if (skipWs rest).isEmpty then some v else none

/-- Embeds `UnifiContentFilter._extract_csrf_token` (lines 30-54) as a pure
function of the `TOKEN` cookie (`none` = cookie absent; Python also treats
an empty cookie string as absent via `if not token_cookie`). Every failure
(wrong part count, undecodable payload, non-JSON or non-object payload,
missing `csrfToken` key) yields `none`; the Python `try`/`except` that makes
raising impossible is represented by this function's totality. -/
def extract_csrf_token (cookie : Option String) : Option JVal :=
  match cookie with
  | none => none
  | some t =>
    if t = "" then none
    else
      match splitOnChar '.' t.data with
      | [_, payload, _] =>
        match b64urlDecode (pad4 payload) with
        | none => none
        | some bytes =>
          match jsonParse bytes with
          | some (JVal.obj fields) => dictGet fields "csrfToken"
          | _ => none
      | _ => none

/-! ## CLI run model -/

/-- Models `requests.Response.raise_for_status`: an `HTTPError` is raised
exactly for 4xx and 5xx status codes. -/
def statusRaises (status : Nat) : Bool :=
  decide (400 ≤ status ∧ status < 600)

/-- All-strings reading of a JSON array. -/
def asStrList : List JVal → Option (List String)
  | [] => some []
  | JVal.str s :: rest => (asStrList rest).map (fun t => s :: t)
  | _ => none

/-- Models `content_filter.get('block_list', [])` (line 192) as used by the
fetch branch: an absent key defaults to the empty list. The branch then
sorts/writes the domains, which this embedding models only for a string
list; a `block_list` that is not an array of strings is outside the
modelled fragment (`none`). -/
def getBlockList (f : ContentFilter) : Option (List String) :=
  match dictGet f "block_list" with
  | none => some []
  | some (JVal.arr es) => asStrList es
  | some _ => none

/-- The not-found diagnostic of lines 93 and 189. -/
def msgNotFound (filter_name : String) : String :=
  "✗ Filter \x27" ++ filter_name ++ "\x27 not found. Please create it in the Unifi UI first."

/-- The empty-file diagnostic of line 211. -/
def msgNoDomains : String := "✗ No domains to sync"

/-- The prefix of the top-level `RequestException` diagnostic of line 215
(the exception text itself is not modelled). -/
def msgReqError : String := "✗ Error"

/-- The parsed CLI command: `fetch <name> [-o out]` or `sync <name> <file>`
(the sync file's contents live in `Env.file`; output/input path strings do
not influence behaviour beyond presence). -/
inductive Cmd where
  | fetch (filter_name : String) (output : Option String)
  | sync (filter_name : String)

/-- The external world of one run: the HTTP status of each endpoint, the
decoded filter collection, and the contents of the sync input file. -/
structure Env where
  loginStatus : Nat
  listStatus : Nat
  filters : List ContentFilter
  putStatus : Nat
  file : Option (List Char)

/-- Observable outcome of a run: process exit code, lines written to
stdout, failure diagnostics written to stderr (the informational chatter
marked with a check mark is not tracked), bodies of issued PUTs, and the
file written by `fetch -o`, if any. -/
structure Outcome where
  exit : Nat
  stdout : List String
  errs : List String
  putBodies : List ContentFilter
  written : Option (List Char)

/-- Embeds `main` (lines 144-216): login, dispatch on the command, and map
every `RequestException` to a diagnostic plus `sys.exit(1)`. A normal
return is exit code 0. `none` marks runs leaving the modelled fragment (a
found filter whose `block_list` is not an array of strings, or the uncaught
`KeyError` on a filter without `_id`). -/
def runMain (env : Env) (cmd : Cmd) : Option Outcome :=
  if statusRaises env.loginStatus then
    some ⟨1, [], [msgReqError], [], none⟩
  else
    match cmd with
    | Cmd.fetch filter_name output =>
      if statusRaises env.listStatus then some ⟨1, [], [msgReqError], [], none⟩
      else
        match find_filter env.filters filter_name with
        | none => some ⟨1, [], [msgNotFound filter_name], [], none⟩
        | some f =>
          match getBlockList f with
          | none => none
          | some domains =>
            match output with
            | some _ => some ⟨0, [], [], [], some (write_filter_file domains filter_name)⟩
            | none => some ⟨0, sortedStrings domains, [], [], none⟩
    | Cmd.sync filter_name =>
      let domains := read_filter_file env.file
      if domains.isEmpty then some ⟨1, [], [msgNoDomains], [], none⟩
      else if statusRaises env.listStatus then some ⟨1, [], [msgReqError], [], none⟩
      else
        match update_content_filters env.filters filter_name domains with
        | UpdResult.notFound => some ⟨1, [], [msgNotFound filter_name], [], none⟩
        | UpdResult.keyError => none
        | UpdResult.putSent body =>
          if statusRaises env.putStatus then some ⟨1, [], [msgReqError], [body], none⟩
          else some ⟨0, [], [], [body], none⟩

/-! ## Supporting lemmas -/

theorem isNameMatch_iff (f : ContentFilter) (n : String) :
    isNameMatch f n = true ↔ dictGet f "name" = some (JVal.str n) := by
  unfold isNameMatch
  cases h : dictGet f "name" with
  | none => simp
  | some v =>
    cases v <;> simp_all

theorem find?_key_map_upd (t : ContentFilter) (k k' : String) (v : JVal)
    (hne : k' ≠ k) :
    List.find? (fun p => decide (p.1 = k'))
        (t.map (fun p => if p.1 = k then (k, v) else p))
      = List.find? (fun p => decide (p.1 = k')) t := by
  have hkk' : ¬ (k = k') := fun e => hne (Eq.symm e)
  induction t with
  | nil => rfl
  | cons a t ih =>
    rw [List.map_cons]
    by_cases hk : a.1 = k
    · rw [if_pos hk]
      rw [List.find?_cons_of_neg _ (by simpa using hkk'),
        List.find?_cons_of_neg _ (by simpa [hk] using hkk'), ih]
    · rw [if_neg hk]
      by_cases hk2 : a.1 = k'
      · rw [List.find?_cons_of_pos _ (by simpa using hk2),
          List.find?_cons_of_pos _ (by simpa using hk2)]
      · rw [List.find?_cons_of_neg _ (by simpa using hk2),
          List.find?_cons_of_neg _ (by simpa using hk2), ih]

theorem find?_self_map_upd (t : ContentFilter) (k : String) (v : JVal)
    (h : t.any (fun p => decide (p.1 = k)) = true) :
    List.find? (fun p => decide (p.1 = k))
        (t.map (fun p => if p.1 = k then (k, v) else p))
      = some (k, v) := by
  induction t with
  | nil => simp at h
  | cons a t ih =>
    rw [List.map_cons]
    by_cases hk : a.1 = k
    · rw [if_pos hk, List.find?_cons_of_pos _ (by simp)]
    · rw [if_neg hk, List.find?_cons_of_neg _ (by simpa using hk)]
      exact ih (by simpa [List.any_cons, hk] using h)

theorem dictGet_dictSet_self (d : ContentFilter) (k : String) (v : JVal) :
    dictGet (dictSet d k v) k = some v := by
  unfold dictSet
  by_cases h : d.any (fun p => decide (p.1 = k)) = true
  · rw [if_pos h]
    unfold dictGet
    rw [find?_self_map_upd d k v h]
    rfl
  · rw [if_neg h]
    have hnone : d.find? (fun p => decide (p.1 = k)) = none := by
      rw [List.find?_eq_none]
      intro x hx
      simp only [List.any_eq_true] at h
      push_neg at h
      simpa using h x hx
    unfold dictGet
    rw [List.find?_append, hnone]
    simp

theorem dictGet_dictSet_ne (d : ContentFilter) (k : String) (v : JVal)
    (k' : String) (hne : k' ≠ k) :
    dictGet (dictSet d k v) k' = dictGet d k' := by
  unfold dictSet
  by_cases h : d.any (fun p => decide (p.1 = k)) = true
  · rw [if_pos h]
    unfold dictGet
    rw [find?_key_map_upd d k k' v hne]
  · rw [if_neg h]
    unfold dictGet
    rw [List.find?_append]
    have : List.find? (fun p => decide (p.1 = k')) [(k, v)] = none := by
      rw [List.find?_cons_of_neg _ (by simpa using fun e => hne (Eq.symm e))]
      rfl
    rw [this]
    simp

theorem asStrList_map_str (ds : List String) :
    asStrList (ds.map JVal.str) = some ds := by
  induction ds with
  | nil => rfl
  | cons d t ih => simp [asStrList, ih]

/-! ## Claim theorems -/

/-- C1: for every filter name that resolves via `find_filter` (to a filter
object carrying the `_id` the API guarantees), `update_content_filters`
sends a PUT whose body is the resolved filter object with its `block_list`
field set exactly to the supplied domain list (same elements, same order,
unsorted) and every other field of the original object unchanged. -/
theorem c1_update_put_body (filters : List ContentFilter) (filter_name : String)
    (domains : List String) (f : ContentFilter) (fid : JVal)
    (hfind : find_filter filters filter_name = some f)
    (hid : dictGet f "_id" = some fid) :
    update_content_filters filters filter_name domains
      = UpdResult.putSent (dictSet f "block_list" (JVal.arr (domains.map JVal.str))) ∧
    dictGet (dictSet f "block_list" (JVal.arr (domains.map JVal.str))) "block_list"
      = some (JVal.arr (domains.map JVal.str)) ∧
    ∀ k, k ≠ "block_list" →
      dictGet (dictSet f "block_list" (JVal.arr (domains.map JVal.str))) k = dictGet f k := by
  refine ⟨?_, dictGet_dictSet_self f _ _, fun k hk => dictGet_dictSet_ne f _ _ k hk⟩
  unfold update_content_filters
  simp only [hfind, hid]

/-- Witness for C1 on a concrete collection: the PUT body keeps `_id` and
the unrelated field `site_id` and carries the new unsorted `block_list`. -/
theorem c1_witness :
    update_content_filters
        [[("name", JVal.str "F"), ("_id", JVal.str "abc"),
          ("block_list", JVal.arr [JVal.str "old.com"]), ("site_id", JVal.num 7)]]
        "F" ["b.com", "a.com"]
      = UpdResult.putSent
          (dictSet [("name", JVal.str "F"), ("_id", JVal.str "abc"),
            ("block_list", JVal.arr [JVal.str "old.com"]), ("site_id", JVal.num 7)]
            "block_list" (JVal.arr (["b.com", "a.com"].map JVal.str))) ∧
    dictGet (dictSet [("name", JVal.str "F"), ("_id", JVal.str "abc"),
        ("block_list", JVal.arr [JVal.str "old.com"]), ("site_id", JVal.num 7)]
        "block_list" (JVal.arr (["b.com", "a.com"].map JVal.str))) "site_id"
      = dictGet [("name", JVal.str "F"), ("_id", JVal.str "abc"),
          ("block_list", JVal.arr [JVal.str "old.com"]), ("site_id", JVal.num 7)] "site_id" := by
  have h := c1_update_put_body
    [[("name", JVal.str "F"), ("_id", JVal.str "abc"),
      ("block_list", JVal.arr [JVal.str "old.com"]), ("site_id", JVal.num 7)]]
    "F" ["b.com", "a.com"]
    [("name", JVal.str "F"), ("_id", JVal.str "abc"),
      ("block_list", JVal.arr [JVal.str "old.com"]), ("site_id", JVal.num 7)]
    (JVal.str "abc") (by rfl) (by rfl)
  exact ⟨h.1, h.2.2 "site_id" (by decide)⟩

/-- C4: `find_filter` returns the first filter in the collection whose
`name` field exactly equals the requested name, and `none` when no filter
matches, including on the empty collection. -/
theorem c4_find_filter_first (filters : List ContentFilter) (filter_name : String) :
    (find_filter filters filter_name = none ↔
      ∀ f ∈ filters, dictGet f "name" ≠ some (JVal.str filter_name)) ∧
    ∀ f, find_filter filters filter_name = some f →
      dictGet f "name" = some (JVal.str filter_name) ∧
      ∃ pre post, filters = pre ++ f :: post ∧
        ∀ g ∈ pre, dictGet g "name" ≠ some (JVal.str filter_name) := by
  constructor
  · unfold find_filter
    rw [List.find?_eq_none]
    constructor
    · intro h f hf e
      exact absurd ((isNameMatch_iff f filter_name).mpr e) (h f hf)
    · intro h f hf hm
      exact h f hf ((isNameMatch_iff f filter_name).mp hm)
  · intro f hf
    unfold find_filter at hf
    rw [List.find?_eq_some] at hf
    obtain ⟨hp, pre, post, heq, hall⟩ := hf
    refine ⟨(isNameMatch_iff f filter_name).mp hp, pre, post, heq, ?_⟩
    intro g hg e
    have hfalse := hall g hg
    rw [(isNameMatch_iff g filter_name).mpr e] at hfalse
    simp at hfalse

/-- Witness for C4: in a two-element collection whose entries share the
name `A`, the first one is returned; matching is case-sensitive. -/
theorem c4_witness :
    dictGet [("name", JVal.str "A"), ("_id", JVal.str "1")] "name" = some (JVal.str "A") ∧
    (find_filter [[("name", JVal.str "a")]] "A" = none ↔
      ∀ f ∈ [[("name", JVal.str "a")]], dictGet f "name" ≠ some (JVal.str "A")) := by
  constructor
  · exact ((c4_find_filter_first
      [[("name", JVal.str "A"), ("_id", JVal.str "1")],
       [("name", JVal.str "A"), ("_id", JVal.str "2")]] "A").2
      [("name", JVal.str "A"), ("_id", JVal.str "1")] rfl).1
  · exact (c4_find_filter_first [[("name", JVal.str "a")]] "A").1

/-- C5: for every name absent from the filter collection and every domain
list, `update_content_filters` issues zero PUTs and returns failure. -/
theorem c5_update_not_found (filters : List ContentFilter) (filter_name : String)
    (domains : List String)
    (h : find_filter filters filter_name = none) :
    update_content_filters filters filter_name domains = UpdResult.notFound ∧
    updPuts (update_content_filters filters filter_name domains) = [] ∧
    updSuccess (update_content_filters filters filter_name domains) = false := by
  have he : update_content_filters filters filter_name domains = UpdResult.notFound := by
    unfold update_content_filters
    rw [h]
  exact ⟨he, by rw [he]; rfl, by rw [he]; rfl⟩

/-- Witness for C5 on a concrete collection without the requested name. -/
theorem c5_witness :
    update_content_filters [[("name", JVal.str "Other")]] "Samsung Adblock" ["a.com"]
      = UpdResult.notFound ∧
    updPuts (update_content_filters [[("name", JVal.str "Other")]] "Samsung Adblock" ["a.com"])
      = [] := by
  have h := c5_update_not_found [[("name", JVal.str "Other")]] "Samsung Adblock" ["a.com"] rfl
  exact ⟨h.1, h.2.1⟩

theorem splitLinesAux_line (l rest acc : List Char) (hl : '\n' ∉ l) :
    splitLinesAux (l ++ '\n' :: rest) acc
      = (acc.reverse ++ l) :: splitLinesAux rest [] := by
  induction l generalizing acc with
  | nil => simp [splitLinesAux]
  | cons c t ih =>
    have hc : ¬ c = '\n' := fun e => hl (e ▸ List.mem_cons_self c t)
    have ht : '\n' ∉ t := fun m => hl (List.mem_cons_of_mem _ m)
    rw [List.cons_append]
    show (if c = '\n' then acc.reverse :: splitLinesAux (t ++ '\n' :: rest) []
      else splitLinesAux (t ++ '\n' :: rest) (c :: acc)) = _
    rw [if_neg hc, ih (c :: acc) ht]
    simp

theorem splitLines_line (l rest : List Char) (hl : '\n' ∉ l) :
    splitLines (l ++ '\n' :: rest) = l :: splitLines rest := by
  unfold splitLines
  rw [splitLinesAux_line l rest [] hl]
  simp

theorem splitLines_nl (rest : List Char) :
    splitLines ('\n' :: rest) = [] :: splitLines rest := by
  unfold splitLines
  show (if ('\n' : Char) = '\n' then List.reverse [] :: splitLinesAux rest []
    else splitLinesAux rest ['\n']) = _
  rw [if_pos rfl]
  rfl

theorem splitLines_flatMap (L : List String) (hL : ∀ d ∈ L, '\n' ∉ d.data) :
    splitLines (L.flatMap (fun d => d.data ++ ['\n'])) = L.map (fun d => d.data) := by
  induction L with
  | nil => rfl
  | cons d t ih =>
    have hd := hL d (List.mem_cons_self d t)
    have ht : ∀ x ∈ t, '\n' ∉ x.data := fun x hx => hL x (List.mem_cons_of_mem _ hx)
    rw [List.flatMap_cons, List.append_assoc, List.singleton_append,
      splitLines_line _ _ hd, ih ht, List.map_cons]

theorem pyStrip_hash_head (xs : List Char) :
    (pyStrip ('#' :: xs)).head? = some '#' := by
  unfold pyStrip
  have h1 : ('#' :: xs).dropWhile isPyWs = '#' :: xs := by
    rw [List.dropWhile_cons]
    simp [show isPyWs '#' = false by decide]
  rw [h1, List.reverse_cons, List.dropWhile_append]
  by_cases h : (xs.reverse.dropWhile isPyWs).isEmpty
  · simp [h, show isPyWs '#' = false by decide]
  · simp [h]

theorem keepLine_of_hash (l : List Char) (h : l.head? = some '#') :
    keepLine l = false := by
  unfold keepLine
  rw [h]
  simp

theorem keepLine_true (l : List Char) (h1 : l ≠ []) (h3 : l.head? ≠ some '#') :
    keepLine l = true := by
  unfold keepLine
  cases l with
  | nil => exact absurd rfl h1
  | cons c cs => simp_all

theorem read_clean_lines (L : List String)
    (h : ∀ d ∈ L, d.data ≠ [] ∧ pyStrip d.data = d.data ∧ d.data.head? ≠ some '#') :
    (((L.map (fun d => d.data)).map pyStrip).filter keepLine).map String.mk = L := by
  induction L with
  | nil => rfl
  | cons d t ih =>
    obtain ⟨h1, h2, h3⟩ := h d (List.mem_cons_self d t)
    rw [List.map_cons, List.map_cons, h2,
      List.filter_cons_of_pos (keepLine_true d.data h1 h3), List.map_cons,
      ih (fun x hx => h x (List.mem_cons_of_mem _ hx))]

theorem headerStr_data (fname : String) :
    (headerStr fname).data
      = ('#' :: ' ' :: fname.data) ++ '\n' ::
          ("# Lines starting with \x27#\x27 are comments".data ++ '\n' ::
            ("# Edit this file and run \x27sync\x27 to update the Unifi controller".data
              ++ '\n' :: '\n' :: [])) := by
  unfold headerStr
  simp [String.data_append]

theorem perm_insertSorted (d : String) (l : List String) :
    List.Perm (insertSorted d l) (d :: l) := by
  induction l with
  | nil => exact List.Perm.refl [d]
  | cons x xs ih =>
    unfold insertSorted
    by_cases h : pyLeStr d x = true
    · rw [if_pos h]
    · rw [if_neg h]
      exact List.Perm.trans (List.Perm.cons x ih) (List.Perm.swap d x xs)

theorem perm_sortedStrings (ds : List String) :
    List.Perm (sortedStrings ds) ds := by
  induction ds with
  | nil => exact List.Perm.refl []
  | cons d t ih =>
    exact List.Perm.trans (perm_insertSorted d (sortedStrings t)) (List.Perm.cons d ih)

theorem mem_sortedStrings (x : String) (ds : List String) :
    x ∈ sortedStrings ds ↔ x ∈ ds :=
  (perm_sortedStrings ds).mem_iff

theorem pyLtChars_asymm : ∀ (as bs : List Char),
    pyLtChars as bs = true → pyLtChars bs as = false
  | [], [] => by intro h; simp [pyLtChars] at h
  | [], _ :: _ => by intro h; rfl
  | _ :: _, [] => by intro h; simp [pyLtChars] at h
  | a :: as, b :: bs => by
    intro h
    unfold pyLtChars at h ⊢
    by_cases h1 : a.toNat < b.toNat
    · rw [if_neg (by omega), if_pos h1]
    · rw [if_neg h1] at h
      by_cases h2 : b.toNat < a.toNat
      · rw [if_pos h2] at h
        exact absurd h (by simp)
      · rw [if_neg h2] at h
        rw [if_neg h2, if_neg h1]
        exact pyLtChars_asymm as bs h

theorem pyLtChars_lt_of_not_lt : ∀ (as bs cs : List Char),
    pyLtChars as cs = true → pyLtChars as bs = false → pyLtChars bs cs = true
  | as, [], cs => by
    intro h1 h2
    cases cs with
    | nil =>
      cases as with
      | nil => simp [pyLtChars] at h1
      | cons a t => simp [pyLtChars] at h1
    | cons c u => rfl
  | [], b :: bs, cs => by
    intro h1 h2
    simp [pyLtChars] at h2
  | a :: as, b :: bs, cs => by
    intro h1 h2
    cases cs with
    | nil => simp [pyLtChars] at h1
    | cons c u =>
      unfold pyLtChars at h1 h2 ⊢
      by_cases hab : a.toNat < b.toNat
      · rw [if_pos hab] at h2
        exact absurd h2 (by simp)
      · rw [if_neg hab] at h2
        by_cases hba : b.toNat < a.toNat
        · by_cases hac : a.toNat < c.toNat
          · rw [if_pos (by omega)]
          · rw [if_neg hac] at h1
            by_cases hca : c.toNat < a.toNat
            · rw [if_pos hca] at h1
              exact absurd h1 (by simp)
            · rw [if_pos (by omega)]
        · rw [if_neg hba] at h2
          by_cases hac : a.toNat < c.toNat
          · rw [if_pos (by omega)]
          · rw [if_neg hac] at h1
            by_cases hca : c.toNat < a.toNat
            · rw [if_pos hca] at h1
              exact absurd h1 (by simp)
            · rw [if_neg hca] at h1
              rw [if_neg (by omega), if_neg (by omega)]
              exact pyLtChars_lt_of_not_lt as bs u h1 h2

theorem pyLeStr_total (a b : String) : pyLeStr a b = true ∨ pyLeStr b a = true := by
  unfold pyLeStr pyLtStr
  cases hv : pyLtChars b.data a.data with
  | false => left; rfl
  | true => right; rw [pyLtChars_asymm _ _ hv]; rfl

theorem pyLeStr_trans (a b c : String) (h1 : pyLeStr a b = true)
    (h2 : pyLeStr b c = true) : pyLeStr a c = true := by
  unfold pyLeStr pyLtStr at h1 h2 ⊢
  rw [Bool.not_eq_true'] at h1 h2
  cases hv : pyLtChars c.data a.data with
  | false => rfl
  | true => exact absurd (pyLtChars_lt_of_not_lt c.data b.data a.data hv h2) (by simp [h1])

theorem pairwise_insertSorted (d : String) (l : List String)
    (hl : List.Pairwise (fun a b => pyLeStr a b = true) l) :
    List.Pairwise (fun a b => pyLeStr a b = true) (insertSorted d l) := by
  induction l with
  | nil => simp [insertSorted]
  | cons x xs ih =>
    rcases List.pairwise_cons.mp hl with ⟨hx, hxs⟩
    unfold insertSorted
    by_cases h : pyLeStr d x = true
    · rw [if_pos h]
      refine List.pairwise_cons.mpr ⟨?_, hl⟩
      intro y hy
      rcases List.mem_cons.mp hy with he | hm
      · rw [he]; exact h
      · exact pyLeStr_trans d x y h (hx y hm)
    · rw [if_neg h]
      refine List.pairwise_cons.mpr ⟨?_, ih hxs⟩
      intro y hy
      rcases List.mem_cons.mp ((perm_insertSorted d xs).mem_iff.mp hy) with he | hm
      · rw [he]
        rcases pyLeStr_total d x with hdx | hxd
        · exact absurd hdx h
        · exact hxd
      · exact hx y hm

theorem sorted_sortedStrings (ds : List String) :
    List.Pairwise (fun a b => pyLeStr a b = true) (sortedStrings ds) := by
  induction ds with
  | nil => exact List.Pairwise.nil
  | cons d t ih => exact pairwise_insertSorted d (sortedStrings t) ih

/-- C2 (amended): for every domain list whose entries survive the file
round-trip unchanged (non-empty, strip-invariant, not starting with `#`,
containing no newline) and a filter name without newline, writing with
`write_filter_file` and reading back with `read_filter_file` yields the
domains in lexicographically sorted order: `write_filter_file` sorts, and
`read_filter_file` keeps file order while stripping the header comments and
the blank line. -/
theorem c2_write_then_read (domains : List String) (fname : String)
    (hd : ∀ d ∈ domains, d.data ≠ [] ∧ pyStrip d.data = d.data ∧
      d.data.head? ≠ some '#' ∧ '\n' ∉ d.data)
    (hn : '\n' ∉ fname.data) :
    read_filter_file (some (write_filter_file domains fname)) = sortedStrings domains ∧
    List.Pairwise (fun a b => pyLeStr a b = true) (sortedStrings domains) ∧
    List.Perm (sortedStrings domains) domains := by
  refine ⟨?_, sorted_sortedStrings domains, perm_sortedStrings domains⟩
  have hsd : ∀ d ∈ sortedStrings domains, d.data ≠ [] ∧ pyStrip d.data = d.data ∧
      d.data.head? ≠ some '#' ∧ '\n' ∉ d.data := by
    intro d hdm
    exact hd d ((mem_sortedStrings d domains).mp hdm)
  have hn1 : '\n' ∉ ('#' :: ' ' :: fname.data) := by
    intro h
    rcases List.mem_cons.mp h with h1 | h
    · exact absurd h1 (by decide)
    rcases List.mem_cons.mp h with h2 | h
    · exact absurd h2 (by decide)
    exact hn h
  have hn2 : '\n' ∉ "# Lines starting with \x27#\x27 are comments".data := by decide
  have hn3 : '\n' ∉ "# Edit this file and run \x27sync\x27 to update the Unifi controller".data := by
    decide
  have hE : (headerStr fname).data ++ (sortedStrings domains).flatMap (fun d => d.data ++ ['\n'])
      = ('#' :: ' ' :: fname.data) ++ '\n' ::
          ("# Lines starting with \x27#\x27 are comments".data ++ '\n' ::
            ("# Edit this file and run \x27sync\x27 to update the Unifi controller".data
              ++ '\n' :: '\n' ::
                (sortedStrings domains).flatMap (fun d => d.data ++ ['\n']))) := by
    rw [headerStr_data]
    simp [List.append_assoc]
  have hlines : splitLines ((headerStr fname).data
        ++ (sortedStrings domains).flatMap (fun d => d.data ++ ['\n']))
      = ('#' :: ' ' :: fname.data)
        :: "# Lines starting with \x27#\x27 are comments".data
        :: "# Edit this file and run \x27sync\x27 to update the Unifi controller".data
        :: [] :: (sortedStrings domains).map (fun d => d.data) := by
    rw [hE, splitLines_line _ _ hn1, splitLines_line _ _ hn2, splitLines_line _ _ hn3,
      splitLines_nl, splitLines_flatMap _ (fun d hdm => (hsd d hdm).2.2.2)]
  show (((splitLines ((headerStr fname).data
      ++ (sortedStrings domains).flatMap (fun d => d.data ++ ['\n']))).map pyStrip).filter
        keepLine).map String.mk = sortedStrings domains
  rw [hlines, List.map_cons, List.map_cons, List.map_cons, List.map_cons,
    List.filter_cons_of_neg (by simp [keepLine_of_hash _ (pyStrip_hash_head (' ' :: fname.data))]),
    List.filter_cons_of_neg (by decide),
    List.filter_cons_of_neg (by decide),
    List.filter_cons_of_neg (by decide)]
  exact read_clean_lines (sortedStrings domains) (fun d hdm =>
    ⟨(hsd d hdm).1, (hsd d hdm).2.1, (hsd d hdm).2.2.1⟩)

/-- Counterexample to C2 as stated: for the domain list `["#x"]` the
round-trip loses the entry (the reader treats it as a comment line), so the
result is not `sorted(D)`. -/
theorem c2_counterexample :
    read_filter_file (some (write_filter_file ["#x"] "Content Filter"))
      ≠ sortedStrings ["#x"] := by
  decide

/-- Witness for C2 at a concrete clean domain list, written unsorted. -/
theorem c2_witness :
    read_filter_file (some (write_filter_file ["b.com", "a.com"] "Content Filter"))
      = sortedStrings ["b.com", "a.com"] :=
  (c2_write_then_read ["b.com", "a.com"] "Content Filter" (by decide) (by decide)).1

theorem splitOnNl_ne_nil : ∀ cs : List Char, splitOnNl cs ≠ []
  | [] => by simp [splitOnNl]
  | c :: rest => by
    unfold splitOnNl
    by_cases hc : c = '\n'
    · rw [if_pos hc]
      simp
    · rw [if_neg hc]
      cases hsp : splitOnNl rest with
      | nil => simp
      | cons h t => simp

theorem splitLinesAux_eq_dropFinalEmpty (cs : List Char) :
    ∀ (acc h : List Char) (t : List (List Char)),
      splitOnNl cs = h :: t →
      splitLinesAux cs acc = dropFinalEmpty ((acc.reverse ++ h) :: t) := by
  induction cs with
  | nil =>
    intro acc h t he
    have he' : ([[]] : List (List Char)) = h :: t := he
    injection he' with he1 he2
    subst he1
    subst he2
    show (if acc.isEmpty then [] else [acc.reverse])
      = dropFinalEmpty [acc.reverse ++ []]
    rw [List.append_nil]
    unfold dropFinalEmpty
    by_cases ha : acc.isEmpty
    · rw [if_pos ha, if_pos (by simpa using ha)]
    · rw [if_neg ha, if_neg (by simpa using ha)]
  | cons c rest ih =>
    intro acc h t he
    obtain ⟨h2, t2, hrest⟩ : ∃ h2 t2, splitOnNl rest = h2 :: t2 := by
      cases hsp : splitOnNl rest with
      | nil => exact absurd hsp (splitOnNl_ne_nil rest)
      | cons x y => exact ⟨x, y, rfl⟩
    by_cases hc : c = '\n'
    · subst hc
      unfold splitOnNl at he
      rw [if_pos rfl] at he
      injection he with he1 he2
      subst he1
      have ht : t = h2 :: t2 := by rw [← he2, hrest]
      show (if ('\n' : Char) = '\n' then acc.reverse :: splitLinesAux rest []
        else splitLinesAux rest ['\n'])
        = dropFinalEmpty ((acc.reverse ++ []) :: t)
      rw [if_pos rfl, List.append_nil, ht]
      show acc.reverse :: splitLinesAux rest []
        = acc.reverse :: dropFinalEmpty (h2 :: t2)
      rw [ih [] h2 t2 hrest]
      simp
    · unfold splitOnNl at he
      rw [if_neg hc, hrest] at he
      injection he with he1 he2
      subst he2
      show (if c = '\n' then acc.reverse :: splitLinesAux rest []
        else splitLinesAux rest (c :: acc))
        = dropFinalEmpty ((acc.reverse ++ h) :: t2)
      rw [if_neg hc, ih (c :: acc) h2 t2 hrest, ← he1]
      have : (c :: acc).reverse ++ h2 = acc.reverse ++ c :: h2 := by simp
      rw [this]

theorem splitLines_eq_dropFinalEmpty (cs : List Char) :
    splitLines cs = dropFinalEmpty (splitOnNl cs) := by
  obtain ⟨h, t, he⟩ : ∃ h t, splitOnNl cs = h :: t := by
    cases hsp : splitOnNl cs with
    | nil => exact absurd hsp (splitOnNl_ne_nil cs)
    | cons x y => exact ⟨x, y, rfl⟩
  unfold splitLines
  rw [splitLinesAux_eq_dropFinalEmpty cs [] h t he, he]
  simp

theorem filter_map_dropFinalEmpty (ls : List (List Char)) :
    ((dropFinalEmpty ls).map pyStrip).filter keepLine
      = (ls.map pyStrip).filter keepLine := by
  induction ls with
  | nil => rfl
  | cons h t ih =>
    cases t with
    | nil =>
      by_cases hh : h.isEmpty
      · have h0 : h = [] := by simpa using hh
        subst h0
        decide
      · show ((if h.isEmpty then [] else [h]).map pyStrip).filter keepLine = _
        rw [if_neg hh]
    | cons h2 t2 =>
      show ((h :: dropFinalEmpty (h2 :: t2)).map pyStrip).filter keepLine = _
      rw [List.map_cons, List.map_cons]
      by_cases hk : keepLine (pyStrip h) = true
      · rw [List.filter_cons_of_pos hk, List.filter_cons_of_pos hk, ih]
      · have hk' : ¬ (keepLine (pyStrip h) = true) := hk
        rw [List.filter_cons_of_neg hk', List.filter_cons_of_neg hk', ih]

/-- C3: `read_filter_file` on a missing path returns the empty list (and,
being a total function, never raises); on an existing file it returns
exactly the lines that, after stripping surrounding whitespace, are
non-empty and do not start with `#`, in original file order — stated
against the independent splitter `splitOnNl`, with no sorting and no
deduplication (plain `filter` of the stripped lines). -/
theorem c3_read_exact (cs : List Char) :
    read_filter_file none = [] ∧
    read_filter_file (some cs)
      = (((splitOnNl cs).map pyStrip).filter keepLine).map String.mk := by
  refine ⟨rfl, ?_⟩
  show (((splitLines cs).map pyStrip).filter keepLine).map String.mk = _
  rw [splitLines_eq_dropFinalEmpty, filter_map_dropFinalEmpty]

theorem extract_eq_match (t : String) (ht : t ≠ "") :
    extract_csrf_token (some t)
      = match splitOnChar '.' t.data with
        | [_, payload, _] =>
          match b64urlDecode (pad4 payload) with
          | none => none
          | some bytes =>
            match jsonParse bytes with
            | some (JVal.obj fields) => dictGet fields "csrfToken"
            | _ => none
        | _ => none := by
  simp only [extract_csrf_token]
  rw [if_neg ht]

/-- C6: CSRF token extraction. An absent or empty cookie yields `none`; a
cookie that does not split into exactly three dot-separated parts yields
`none`; an undecodable (padded) payload yields `none`; a decodable payload
behaves as `json.loads` then `.get('csrfToken')`: a JSON object containing
the key returns its value, and a non-object, unparseable, or key-less
payload yields `none`. The extraction function is total, so it never
raises. -/
theorem c6_extract_csrf :
    extract_csrf_token none = none ∧
    extract_csrf_token (some "") = none ∧
    (∀ t : String, t ≠ "" → (splitOnChar '.' t.data).length ≠ 3 →
      extract_csrf_token (some t) = none) ∧
    (∀ (t : String) (h p s : List Char), t ≠ "" →
      splitOnChar '.' t.data = [h, p, s] →
      b64urlDecode (pad4 p) = none → extract_csrf_token (some t) = none) ∧
    (∀ (t : String) (h p s : List Char) (bytes : List Nat), t ≠ "" →
      splitOnChar '.' t.data = [h, p, s] →
      b64urlDecode (pad4 p) = some bytes →
      extract_csrf_token (some t)
        = match jsonParse bytes with
          | some (JVal.obj fields) => dictGet fields "csrfToken"
          | _ => none) ∧
    (∀ (t : String) (h p s : List Char) (bytes : List Nat)
        (fields : List (String × JVal)) (v : JVal), t ≠ "" →
      splitOnChar '.' t.data = [h, p, s] →
      b64urlDecode (pad4 p) = some bytes →
      jsonParse bytes = some (JVal.obj fields) →
      dictGet fields "csrfToken" = some v →
      extract_csrf_token (some t) = some v) := by
  refine ⟨rfl, rfl, ?_, ?_, ?_, ?_⟩
  · intro t ht hlen
    rw [extract_eq_match t ht]
    rcases hsp : splitOnChar '.' t.data with _ | ⟨a, _ | ⟨b, _ | ⟨c, _ | ⟨d, l4⟩⟩⟩⟩
    · rfl
    · rfl
    · rfl
    · exact absurd (by rw [hsp]; rfl) hlen
    · rfl
  · intro t h p s ht hsp hdec
    rw [extract_eq_match t ht]
    simp only [hsp, hdec]
  · intro t h p s bytes ht hsp hdec
    rw [extract_eq_match t ht]
    simp only [hsp, hdec]
  · intro t h p s bytes fields v ht hsp hdec hjson hv
    rw [extract_eq_match t ht]
    simp only [hsp, hdec, hjson]
    exact hv

/-- Witness for C6: a concrete JWT-shaped cookie whose payload is the
base64url encoding of the JSON text holding key `csrfToken` and value
`abc`; extraction returns that value. -/
theorem c6_witness :
    extract_csrf_token (some "x.eyJjc3JmVG9rZW4iOiJhYmMifQ.y") = some (JVal.str "abc") :=
  c6_extract_csrf.2.2.2.2.2 "x.eyJjc3JmVG9rZW4iOiJhYmMifQ.y"
    "x".data "eyJjc3JmVG9rZW4iOiJhYmMifQ".data "y".data
    [123, 34, 99, 115, 114, 102, 84, 111, 107, 101, 110, 34, 58, 34, 97, 98, 99, 34, 125]
    [("csrfToken", JVal.str "abc")] (JVal.str "abc")
    (by decide) rfl rfl rfl rfl

/-- C7 (amended): a 4xx or 5xx response to the login POST raises, and the
top-level handler turns that into a failure diagnostic and exit status 1
for the whole run — nothing on stdout, no PUT issued, regardless of the
command. (Statuses outside 400-599, e.g. 304, do not raise in
`raise_for_status`, so the original "any non-2xx" phrasing is too broad.) -/
theorem c7_login_failure (env : Env) (cmd : Cmd)
    (h4 : 400 ≤ env.loginStatus) (h6 : env.loginStatus < 600) :
    runMain env cmd = some ⟨1, [], [msgReqError], [], none⟩ := by
  have hs : statusRaises env.loginStatus = true := by
    unfold statusRaises
    exact decide_eq_true ⟨h4, h6⟩
  unfold runMain
  rw [if_pos hs]

/-- Counterexample to C7 as stated: 304 is not a 2xx status, yet
`raise_for_status` does not raise on it, so a login answered with 304 does
not abort — the concrete run below completes with exit status 0. -/
theorem c7_counterexample :
    ¬ (200 ≤ 304 ∧ 304 < 300) ∧
    (runMain ⟨304, 200, [[("name", JVal.str "F"), ("_id", JVal.str "1")]], 200, none⟩
        (Cmd.fetch "F" none)).map Outcome.exit = some 0 := by
  exact ⟨by omega, rfl⟩

/-- Witness for C7: a 404 on login aborts a fetch run with exit 1. -/
theorem c7_witness :
    runMain ⟨404, 200, [], 200, none⟩ (Cmd.fetch "F" none)
      = some ⟨1, [], [msgReqError], [], none⟩ :=
  c7_login_failure ⟨404, 200, [], 200, none⟩ (Cmd.fetch "F" none) (by decide) (by decide)

/-- C8: when every line of the sync input file strips to empty or to a `#`
comment (so `read_filter_file` yields `[]` — a missing file included), a
sync run that gets past login exits with status 1, prints the
no-domains-to-sync diagnostic, and issues no PUT. -/
theorem c8_empty_file_sync (env : Env) (filter_name : String)
    (hlogin : statusRaises env.loginStatus = false)
    (hfile : ∀ cs, env.file = some cs →
      ∀ l ∈ splitLines cs, pyStrip l = [] ∨ (pyStrip l).head? = some '#') :
    runMain env (Cmd.sync filter_name) = some ⟨1, [], [msgNoDomains], [], none⟩ := by
  have hread : read_filter_file env.file = [] := by
    cases henv : env.file with
    | none => rfl
    | some cs =>
      show (((splitLines cs).map pyStrip).filter keepLine).map String.mk = []
      have hfil : ((splitLines cs).map pyStrip).filter keepLine = [] := by
        rw [List.filter_eq_nil_iff]
        intro x hx
        rcases List.mem_map.mp hx with ⟨l, hl, he⟩
        rcases hfile cs henv l hl with h0 | hh
        · rw [← he, h0]
          decide
        · rw [← he]
          simp [keepLine_of_hash _ hh]
      rw [hfil]
      rfl
  unfold runMain
  rw [if_neg (by simp [hlogin])]
  simp [hread]

/-- Witness for C8: a file holding one comment line and one blank line. -/
theorem c8_witness :
    runMain ⟨200, 200, [], 200, some ("# a comment\n   \n".data)⟩ (Cmd.sync "F")
      = some ⟨1, [], [msgNoDomains], [], none⟩ :=
  c8_empty_file_sync ⟨200, 200, [], 200, some ("# a comment\n   \n".data)⟩ "F" rfl
    (by intro cs hcs; cases hcs; decide)

/-- C9: for every found filter whose `block_list` is an array of strings,
`fetch` without an output path prints exactly that block-list to stdout,
one domain per line, in the lexicographically sorted order (the printed
list is a sorted permutation of the block-list), and exits 0. -/
theorem c9_fetch_stdout_sorted (env : Env) (filter_name : String)
    (f : ContentFilter) (ds : List String)
    (hlogin : statusRaises env.loginStatus = false)
    (hlist : statusRaises env.listStatus = false)
    (hfind : find_filter env.filters filter_name = some f)
    (hbl : dictGet f "block_list" = some (JVal.arr (ds.map JVal.str))) :
    runMain env (Cmd.fetch filter_name none)
      = some ⟨0, sortedStrings ds, [], [], none⟩ ∧
    List.Pairwise (fun a b => pyLeStr a b = true) (sortedStrings ds) ∧
    List.Perm (sortedStrings ds) ds := by
  refine ⟨?_, sorted_sortedStrings ds, perm_sortedStrings ds⟩
  have hgbl : getBlockList f = some ds := by
    unfold getBlockList
    simp only [hbl]
    exact asStrList_map_str ds
  unfold runMain
  rw [if_neg (by simp [hlogin])]
  simp [hlist, hfind, hgbl]

/-- Witness for C9: the controller returns `block_list ["b.com", "a.com"]`
and the run prints `a.com` then `b.com`. -/
theorem c9_witness :
    (runMain
        ⟨200, 200,
          [[("name", JVal.str "Samsung Adblock"), ("_id", JVal.str "1"),
            ("block_list", JVal.arr [JVal.str "b.com", JVal.str "a.com"])]],
          200, none⟩
        (Cmd.fetch "Samsung Adblock" none)).map Outcome.stdout
      = some ["a.com", "b.com"] := by
  rw [(c9_fetch_stdout_sorted
    ⟨200, 200,
      [[("name", JVal.str "Samsung Adblock"), ("_id", JVal.str "1"),
        ("block_list", JVal.arr [JVal.str "b.com", JVal.str "a.com"])]],
      200, none⟩
    "Samsung Adblock"
    [("name", JVal.str "Samsung Adblock"), ("_id", JVal.str "1"),
      ("block_list", JVal.arr [JVal.str "b.com", JVal.str "a.com"])]
    ["b.com", "a.com"] rfl rfl rfl rfl).1]
  rfl

/-- C10: when the found filter has no `block_list` field at all, fetch does
not raise: it treats the block-list as empty, printing nothing (and exit 0)
without an output path, and writing the header-only file (and exit 0) with
one. -/
theorem c10_fetch_no_block_list (env : Env) (filter_name : String)
    (f : ContentFilter)
    (hlogin : statusRaises env.loginStatus = false)
    (hlist : statusRaises env.listStatus = false)
    (hfind : find_filter env.filters filter_name = some f)
    (hbl : dictGet f "block_list" = none) :
    runMain env (Cmd.fetch filter_name none) = some ⟨0, [], [], [], none⟩ ∧
    ∀ out : String, runMain env (Cmd.fetch filter_name (some out))
      = some ⟨0, [], [], [], some ((headerStr filter_name).data)⟩ := by
  have hgbl : getBlockList f = some [] := by
    unfold getBlockList
    simp only [hbl]
  have hw : write_filter_file [] filter_name = (headerStr filter_name).data := by
    unfold write_filter_file
    simp [sortedStrings]
  constructor
  · unfold runMain
    rw [if_neg (by simp [hlogin])]
    simp [hlist, hfind, hgbl, sortedStrings]
  · intro out
    unfold runMain
    rw [if_neg (by simp [hlogin])]
    simp [hlist, hfind, hgbl, hw]

/-- Witness for C10: a found filter without `block_list`, in both output
modes. -/
theorem c10_witness :
    runMain ⟨200, 200, [[("name", JVal.str "F"), ("_id", JVal.str "1")]], 200, none⟩
        (Cmd.fetch "F" none)
      = some ⟨0, [], [], [], none⟩ ∧
    runMain ⟨200, 200, [[("name", JVal.str "F"), ("_id", JVal.str "1")]], 200, none⟩
        (Cmd.fetch "F" (some "out.txt"))
      = some ⟨0, [], [], [], some ((headerStr "F").data)⟩ := by
  have h := c10_fetch_no_block_list
    ⟨200, 200, [[("name", JVal.str "F"), ("_id", JVal.str "1")]], 200, none⟩
    "F" [("name", JVal.str "F"), ("_id", JVal.str "1")] rfl rfl rfl rfl
  exact ⟨h.1, h.2 "out.txt"⟩
